import Mathlib

/-!
Verification development for the landsat-ml-cookbook pipelines.

The repository consists of two notebooks:
* `2.0_Preprocessing.ipynb` — NDVI computation, region-of-interest grid
  construction with `np.arange`, linear regridding, and `groupby_bins`
  downsampling;
* `3.0_Spectral_Clustering_PC.ipynb` — stack/transpose flattening of a
  multi-band raster, global standardization, spectral clustering, unstack
  reconstruction, and `where`-based water masking.

Below, each operation the notebooks perform is embedded as an executable
Lean definition over exact rationals (floating-point values are modelled
by `ℚ`, NaN missing-value markers by `Option`), and the behavioural claims
about them are proved or refuted.
-/

set_option autoImplicit false

namespace Landsat

/-! ### Basic numeric helpers -/

/-- Arithmetic mean of a list of rationals, as computed by `.mean()`
(`sum / length`; the empty list yields `0` since `ℚ` division by zero is `0`). -/
def meanQ (l : List ℚ) : ℚ := l.sum / l.length

/-- Population variance of a list of rationals (`ddof = 0`, the default of
`xarray`'s `.std()`): mean of squared deviations from the mean. -/
def varQ (l : List ℚ) : ℚ := (l.map (fun v => (v - meanQ l) ^ 2)).sum / l.length

/-! ### Grid builder (notebook 2.0, cells 62 and 71)

The notebook computes `xmin = center - buffer`, `xmax = center + buffer`
and then `x = np.arange(xmin, xmax, res)`.  For a positive step,
`np.arange(start, stop, step)` produces `max(0, ⌈(stop - start)/step⌉)`
elements `start + k·step`. -/

/-- Number of elements of `np.arange(start, stop, step)` for our use
(positive step): `⌈(stop - start)/step⌉` clamped to a natural number. -/
def arangeLen (start stop step : ℚ) : ℕ :=
  if step ≤ 0 then 0 else (⌈(stop - start) / step⌉).toNat

/-- The coordinate sequence produced by `np.arange(start, stop, step)`. -/
def arange (start stop step : ℚ) : List ℚ :=
  (List.range (arangeLen start stop step)).map (fun (k : ℕ) => start + (k : ℚ) * step)

/-- The target-grid axis built by the notebook from a center coordinate,
a symmetric buffer and a resolution: `np.arange(c - b, c + b, r)`. -/
def buildGrid (c b r : ℚ) : List ℚ := arange (c - b) (c + b) r

/-! ### Vegetation index (notebook 2.0, cells 17 and 21)

`NDVI = (NIR - Red) / (NIR + Red)` per pixel.  NumPy float division by a
zero denominator produces a NaN/Inf missing marker instead of raising; the
embedding returns `none` in that case. -/

/-- Per-pixel NDVI; a zero denominator yields the missing-value marker. -/
def NDVI (nir red : ℚ) : Option ℚ :=
  if nir + red = 0 then none else some ((nir - red) / (nir + red))

/-! ### Label rasters and the water mask (notebook 3.0, cells 70 and 73)

`water = unstacked.where(unstacked == water_cluster, 0)` keeps a cell's
value where it equals the chosen cluster label and replaces it with `0`
elsewhere.  A reconstructed label raster is a labelled 2-D array: x and y
coordinate labels plus a row-major grid of integer labels. -/

structure LabeledRaster where
  xs : List ℚ
  ys : List ℚ
  vals : List (List ℤ)

/-- `R.where(R == t, 0)`: keep cells equal to the target label `t`,
zero out every other cell; coordinates are untouched. -/
def maskLabel (R : LabeledRaster) (t : ℤ) : LabeledRaster where
  xs := R.xs
  ys := R.ys
  vals := R.vals.map (fun row => row.map (fun v => if v = t then v else 0))

/-- Two label rasters are congruent when they carry the same coordinate
labels and the same row shape — the precondition for element-wise
arithmetic without realignment. -/
def congruent (R S : LabeledRaster) : Prop :=
  R.xs = S.xs ∧ R.ys = S.ys ∧ R.vals.map List.length = S.vals.map List.length

instance (R S : LabeledRaster) : Decidable (congruent R S) := by
  unfold congruent; infer_instance

/-- A single-cell label raster holding the label `0`, with `0` as the chosen
target label a cell equal to the target keeps its value — which is `0`. -/
def zeroCellRaster : LabeledRaster where
  xs := [0]
  ys := [0]
  vals := [[0]]

/-! ### Direct arithmetic between rasters on different grids
(notebook 2.0, cell 24)

`NDVI_diff = NDVI_2017 - NDVI_1988` subtracts two rasters on different
native grids; xarray label-aligns the operands with an inner join, so the
result's coordinates are the intersection of the two coordinate sets and
no error is raised.  A raster is embedded label-based: coordinate label
lists plus a total value map keyed by labels. -/

structure QRaster where
  xs : List ℚ
  ys : List ℚ
  val : ℚ → ℚ → ℚ

/-- xarray subtraction of two rasters: inner-join alignment on each
coordinate axis, then element-wise subtraction on the shared labels. -/
def alignSub (A B : QRaster) : QRaster where
  xs := A.xs.filter (fun x => decide (x ∈ B.xs))
  ys := A.ys.filter (fun y => decide (y ∈ B.ys))
  val := fun x y => A.val x y - B.val x y

/-! ### Flatten / unflatten (notebook 3.0, cells 21, 40 and 42)

`flattened_xda = da.stack(z=("x", "y"))` builds a sample axis `z` of
length `nx·ny` iterating the listed dimensions with the last one fastest:
sample `k` is pixel `(x (k / ny), y (k % ny))`, and the stacked `x`/`y`
coordinate labels ride along on `z`.  `transpose("z", "band")` puts the
sample axis first.  Reconstruction copies data onto a template carrying
the stacked coordinates and calls `.unstack()`, which rebuilds the
`(x, y)` axes from the stacked labels. -/

/-- A multi-band raster: band/x/y coordinate labels and a value per
(band, x, y) index triple. -/
@[ext]
structure BRaster (nb nx ny : ℕ) where
  bandCoord : Fin nb → ℚ
  xs : Fin nx → ℚ
  ys : Fin ny → ℚ
  data : Fin nb → Fin nx → Fin ny → ℚ

/-- A flattened (sample, band) matrix: band labels, the stacked x and y
coordinate labels carried on the sample axis, and a value per
(sample, band) pair. -/
@[ext]
structure FlatSamples (nb nz : ℕ) where
  bandCoord : Fin nb → ℚ
  zx : Fin nz → ℚ
  zy : Fin nz → ℚ
  data : Fin nz → Fin nb → ℚ

/-- `stack(z=("x","y"))` followed by `transpose("z","band")`: sample `k`
is pixel `(k / ny, k % ny)` and carries that pixel's coordinate labels. -/
def flatten {nb nx ny : ℕ} (R : BRaster nb nx ny) : FlatSamples nb (nx * ny) where
  bandCoord := R.bandCoord
  zx := fun k =>
    R.xs ⟨k.val / ny, (Nat.div_lt_iff_lt_mul (Nat.pos_of_ne_zero
      (fun h => absurd k.isLt (by simp [h])))).mpr k.isLt⟩
  zy := fun k =>
    R.ys ⟨k.val % ny, Nat.mod_lt _ (Nat.pos_of_ne_zero
      (fun h => absurd k.isLt (by simp [h])))⟩
  data := fun k b =>
    R.data b
      ⟨k.val / ny, (Nat.div_lt_iff_lt_mul (Nat.pos_of_ne_zero
        (fun h => absurd k.isLt (by simp [h])))).mpr k.isLt⟩
      ⟨k.val % ny, Nat.mod_lt _ (Nat.pos_of_ne_zero
        (fun h => absurd k.isLt (by simp [h])))⟩

/-- Copying the stacked coordinates onto a result and calling
`.unstack()`: pixel `(i, j)` reads sample `i·ny + j`, and each spatial
axis recovers its labels from the stacked coordinates. -/
def unflatten (nb nx ny : ℕ) (F : FlatSamples nb (nx * ny)) : BRaster nb nx ny where
  bandCoord := F.bandCoord
  xs := fun i =>
    if hy : 0 < ny then
      F.zx ⟨i.val * ny, (Nat.mul_lt_mul_right hy).mpr i.isLt⟩
    else 0
  ys := fun j =>
    if hx : 0 < nx then
      F.zy ⟨j.val, lt_of_lt_of_le j.isLt (Nat.le_mul_of_pos_left ny hx)⟩
    else 0
  data := fun b i j =>
    F.data ⟨i.val * ny + j.val, by
      calc i.val * ny + j.val < i.val * ny + ny := Nat.add_lt_add_left j.isLt _
        _ = (i.val + 1) * ny := (Nat.succ_mul _ _).symm
        _ ≤ nx * ny := Nat.mul_le_mul_right _ (Nat.succ_le_of_lt i.isLt)⟩ b

/-- A concrete 1-band 2×2 raster used to witness the round trip. -/
def sampleRaster : BRaster 1 2 2 where
  bandCoord := fun _ => 7
  xs := fun i => (i.val : ℚ)
  ys := fun j => (j.val : ℚ) + 10
  data := fun _ i j => (i.val : ℚ) * 2 + (j.val : ℚ)

/-! ### Standardizer (notebook 3.0, cell 23)

`rescaled_xda = (flattened_t_xda - flattened_t_xda.mean()) / flattened_t_xda.std()`
subtracts the single global mean and divides by the single global standard
deviation, both computed jointly over all samples and bands.  The standard
deviation is the nonnegative square root of `varQ`; the embedding passes
that root in as a parameter `s` constrained by `s * s = varQ l`. -/

/-- Global standardization of the flattened values `l`, dividing by the
standard deviation `s` (the nonnegative root of the global variance). -/
def rescaled (l : List ℚ) (s : ℚ) : List ℚ :=
  l.map (fun v => (v - meanQ l) / s)

/-- NumPy float division under the default error state: a zero divisor
yields a non-finite marker (NaN when the numerator is also zero) with a
RuntimeWarning — no exception is raised.  As for `NDVI`, the marker is
embedded as `none`. -/
def divNaN (a b : ℚ) : Option ℚ :=
  if b = 0 then none else some (a / b)

/-- The standardizer with NumPy's element-wise float-division semantics:
each cell is `(v - mean) / std` via `divNaN`, with `s` the standard
deviation (the nonnegative root of the global variance).  When the global
standard deviation is zero every cell becomes a marker instead of an
error being raised. -/
def rescaledNaN (l : List ℚ) (s : ℚ) : List (Option ℚ) :=
  l.map (fun v => divNaN (v - meanQ l) s)

/-! ### Downsampler (notebook 2.0, cells 91 and 93)

`diff.groupby_bins('x', edges, labels=edges[:-1]).mean(dim='x')` bins the
fine cells by coordinate with `pandas.cut` semantics (`right=True`): a
cell at coordinate `c` belongs to the first bin `(edges i, edges (i+1)]`
with `edges i < c ≤ edges (i+1)`; a cell at or below the first edge or
above the last edge belongs to no bin.  Each non-empty bin is aggregated
by `mean` and labelled with its left edge; xarray drops bins that contain
no cells. -/

/-- `pandas.cut` with default `right=True`: the index of the first
left-open right-closed interval between consecutive edges containing `c`,
or `none` when no interval contains it. -/
def cutIdx (edges : List ℚ) (c : ℚ) : Option ℕ :=
  match edges with
  | [] => none
  | [_] => none
  | l :: r :: rest =>
      if l < c ∧ c ≤ r then some 0
      else (cutIdx (r :: rest) c).map (· + 1)

/-- The values of the fine cells assigned to bin `i` of `edges`. -/
def binMembers (cells : List (ℚ × ℚ)) (edges : List ℚ) (i : ℕ) : List ℚ :=
  (cells.filter (fun p => decide (cutIdx edges p.1 = some i))).map Prod.snd

/-- `groupby_bins(…, labels=edges[:-1]).mean()` over a list of
(coordinate, value) fine cells.  When no cell falls within any bin,
`groupby_bins` raises `ValueError` ("None of the data falls within bins
with edges …"); that error result is `none`.  Otherwise each bin with at
least one member yields the mean of its members labelled with the bin's
left edge, and empty bins are dropped from the output. -/
def binnedMean (cells : List (ℚ × ℚ)) (edges : List ℚ) : Option (List (ℚ × ℚ)) :=
  if ∀ p ∈ cells, cutIdx edges p.1 = none then none
  else some ((List.range (edges.length - 1)).filterMap (fun i =>
    if binMembers cells edges i = [] then none
    else some (edges.getD i 0, meanQ (binMembers cells edges i))))

/-! ## Helper lemmas -/

/-- `getD` commutes with `map` when the default is mapped as well. -/
theorem getD_map {α β : Type} (f : α → β) (l : List α) (i : ℕ) (d : α) :
    (l.map f).getD i (f d) = f (l.getD i d) := by
  induction l generalizing i with
  | nil => simp
  | cons a l ih => cases i <;> simp [ih]

/-! ## C6 — arithmetic between rasters on mismatched grids -/

/-- C6: direct element-wise subtraction of two rasters on different
coordinate grids raises no error (it is a total operation) and yields a
result whose coordinates on each axis are exactly the labels present in
both operands — the intersection of the two grids — with the value at a
shared label being the element-wise difference. -/
theorem alignSub_spec (A B : QRaster) :
    (∀ x, x ∈ (alignSub A B).xs ↔ (x ∈ A.xs ∧ x ∈ B.xs)) ∧
    (∀ y, y ∈ (alignSub A B).ys ↔ (y ∈ A.ys ∧ y ∈ B.ys)) ∧
    (∀ x y, (alignSub A B).val x y = A.val x y - B.val x y) := by
  refine ⟨fun x => ?_, fun y => ?_, fun x y => rfl⟩ <;>
    simp [alignSub, List.mem_filter]

/-! ## C9 — vegetation-index totality and range -/

/-- C9: the NDVI computation `(NIR - Red) / (NIR + Red)` is total: a zero
denominator yields the missing-value marker rather than an error, and for
non-negative band values with a nonzero denominator the result lies in
`[-1, 1]`. -/
theorem NDVI_total_range (nir red : ℚ) (hn : 0 ≤ nir) (hr : 0 ≤ red) :
    (nir + red = 0 → NDVI nir red = none) ∧
    (nir + red ≠ 0 → ∃ q, NDVI nir red = some q ∧ -1 ≤ q ∧ q ≤ 1) := by
  constructor
  · intro h
    simp [NDVI, h]
  · intro h
    have hpos : 0 < nir + red := lt_of_le_of_ne (by positivity) (Ne.symm h)
    refine ⟨(nir - red) / (nir + red), by simp [NDVI, h], ?_, ?_⟩
    · rw [le_div_iff₀ hpos]
      linarith
    · rw [div_le_one hpos]
      linarith

/-- Witness for C9 at `NIR = 3`, `Red = 1`. -/
theorem NDVI_total_range_witness :
    (0 ≤ (3 : ℚ)) ∧ (0 ≤ (1 : ℚ)) ∧
    (((3 : ℚ) + 1 = 0 → NDVI 3 1 = none) ∧
     ((3 : ℚ) + 1 ≠ 0 → ∃ q, NDVI 3 1 = some q ∧ -1 ≤ q ∧ q ≤ 1)) :=
  ⟨by norm_num, by norm_num, NDVI_total_range 3 1 (by norm_num) (by norm_num)⟩

/-! ## C5 — water-mask correctness -/

/-- C5 counterexample: with target label `t = 0` and a raster cell equal
to `0`, `where(R == t, 0)` keeps the cell's value `0`, so the mask entry
at a cell where `R == t` is zero — refuting "nonzero exactly where
`R == t`" for arbitrary target labels. -/
theorem maskLabel_nonzero_iff_cex :
    ¬ ((((maskLabel zeroCellRaster 0).vals.getD 0 []).getD 0 0 ≠ 0) ↔
       ((zeroCellRaster.vals.getD 0 []).getD 0 0 = 0)) := by
  simp [maskLabel, zeroCellRaster]

/-- C5 amended: for every nonzero target label `t`, the mask
`R.where(R == t, 0)` has a nonzero entry exactly at the cells where the
label raster equals `t`, and zero everywhere else. -/
theorem maskLabel_nonzero_iff (R : LabeledRaster) (t : ℤ) (ht : t ≠ 0)
    (i j : ℕ) :
    (((maskLabel R t).vals.getD i []).getD j 0 ≠ 0) ↔
    ((R.vals.getD i []).getD j 0 = t) := by
  have hrow : (maskLabel R t).vals.getD i [] =
      (R.vals.getD i []).map (fun v => if v = t then v else 0) := by
    have h := getD_map (fun row : List ℤ =>
      row.map (fun v => if v = t then v else 0)) R.vals i []
    simpa [maskLabel] using h
  have hcell : ((maskLabel R t).vals.getD i []).getD j 0 =
      (fun v : ℤ => if v = t then v else 0) ((R.vals.getD i []).getD j 0) := by
    rw [hrow]
    have h := getD_map (fun v : ℤ => if v = t then v else 0)
      (R.vals.getD i []) j 0
    simpa using h
  rw [hcell]
  simp only []
  by_cases hv : (R.vals.getD i []).getD j 0 = t
  · rw [hv, if_pos rfl]
    simp [ht]
  · rw [if_neg hv]
    simpa using hv

/-- Witness for the amended C5 at the single-cell raster and label `2`. -/
theorem maskLabel_nonzero_iff_witness :
    ((2 : ℤ) ≠ 0) ∧
    ((((maskLabel zeroCellRaster 2).vals.getD 0 []).getD 0 0 ≠ 0) ↔
     ((zeroCellRaster.vals.getD 0 []).getD 0 0 = 2)) :=
  ⟨by decide, maskLabel_nonzero_iff zeroCellRaster 2 (by decide) 0 0⟩

/-! ## C10 — mask frame condition -/

/-- C10: masking changes only cell values — coordinate labels and the row
shape are preserved exactly — so the masks of two congruent label rasters
are themselves congruent and remain element-wise subtractable without
realignment. -/
theorem maskLabel_frame (R : LabeledRaster) (t : ℤ) :
    (maskLabel R t).xs = R.xs ∧ (maskLabel R t).ys = R.ys ∧
    (maskLabel R t).vals.map List.length = R.vals.map List.length ∧
    (∀ S u, congruent R S → congruent (maskLabel R t) (maskLabel S u)) := by
  have hshape : ∀ (T : LabeledRaster) (w : ℤ),
      (maskLabel T w).vals.map List.length = T.vals.map List.length := by
    intro T w
    simp [maskLabel, List.map_map, Function.comp]
  refine ⟨rfl, rfl, hshape R t, ?_⟩
  rintro S u ⟨e1, e2, e3⟩
  exact ⟨by simpa [maskLabel] using e1, by simpa [maskLabel] using e2,
    by rw [hshape R t, hshape S u]; exact e3⟩

/-- Witness for C10: the single-cell raster is congruent to itself, and
its two masks (labels `1` and `2`) stay congruent. -/
theorem maskLabel_frame_witness :
    congruent zeroCellRaster zeroCellRaster ∧
    congruent (maskLabel zeroCellRaster 1) (maskLabel zeroCellRaster 2) := by
  have hc : congruent zeroCellRaster zeroCellRaster := ⟨rfl, rfl, rfl⟩
  exact ⟨hc, (maskLabel_frame zeroCellRaster 1).2.2.2 zeroCellRaster 2 hc⟩

/-! ## C1 — flatten/unflatten round trip -/

/-- C1: flattening a raster with named band and spatial axes into a
(sample, band) matrix — `stack(z=("x","y"))` then `transpose` — and then
unflattening — copying the stacked coordinates onto the result and
`unstack`ing — reproduces the original raster's values and coordinate
labels exactly (for nonempty spatial axes). -/
theorem flatten_unflatten_id {nb nx ny : ℕ} (R : BRaster nb nx ny)
    (hx : 0 < nx) (hy : 0 < ny) :
    unflatten nb nx ny (flatten R) = R := by
  refine BRaster.ext ?_ ?_ ?_ ?_
  · rfl
  · funext i
    simp only [unflatten, flatten, dif_pos hy]
    exact congrArg R.xs (Fin.ext (Nat.mul_div_cancel _ hy))
  · funext j
    simp only [unflatten, flatten, dif_pos hx]
    exact congrArg R.ys (Fin.ext (Nat.mod_eq_of_lt j.isLt))
  · funext b i j
    simp only [unflatten, flatten]
    have h1 : (i.val * ny + j.val) / ny = i.val := by
      rw [Nat.mul_comm, Nat.mul_add_div hy, Nat.div_eq_of_lt j.isLt, Nat.add_zero]
    have h2 : (i.val * ny + j.val) % ny = j.val := by
      rw [Nat.mul_comm, Nat.mul_add_mod, Nat.mod_eq_of_lt j.isLt]
    congr 1
    · exact Fin.ext h1
    · exact Fin.ext h2

/-- Witness for C1 on a concrete 1-band 2×2 raster. -/
theorem flatten_unflatten_id_witness :
    0 < 2 ∧ 0 < 2 ∧
    unflatten 1 2 2 (flatten sampleRaster) = sampleRaster :=
  ⟨by decide, by decide, flatten_unflatten_id sampleRaster (by decide) (by decide)⟩

/-! ## C2 — grid-builder bounds -/

/-- Element `i` of `np.arange(start, stop, step)` is `start + i·step`. -/
theorem arange_getD (start stop step : ℚ) (i : ℕ)
    (h : i < arangeLen start stop step) :
    (arange start stop step).getD i 0 = start + i * step := by
  rw [arange, List.getD_eq_getElem?_getD, List.getElem?_map,
    List.getElem?_range h]
  rfl

/-- C2: for center `c`, positive buffer `b` and positive resolution `r`,
every coordinate of `np.arange(c - b, c + b, r)` lies in `[c - b, c + b)`
(the box maximum `c + b` is never reached), consecutive coordinates differ
by exactly `r`, and the first coordinate is the box minimum `c - b`. -/
theorem buildGrid_spec (c b r : ℚ) (hr : 0 < r) (hb : 0 < b) :
    (∀ v ∈ buildGrid c b r, c - b ≤ v ∧ v < c + b) ∧
    (∀ k, k + 1 < (buildGrid c b r).length →
      (buildGrid c b r).getD (k + 1) 0 -
        (buildGrid c b r).getD k 0 = r) ∧
    (buildGrid c b r).getD 0 0 = c - b := by
  have hstep : ¬ (r ≤ 0) := not_le.mpr hr
  have hlen : arangeLen (c - b) (c + b) r =
      (⌈((c + b) - (c - b)) / r⌉).toNat := by
    simp [arangeLen, hstep]
  have hlen2 : (buildGrid c b r).length =
      arangeLen (c - b) (c + b) r := by
    rw [buildGrid, arange, List.length_map, List.length_range]
  refine ⟨?_, ?_, ?_⟩
  · intro v hv
    simp only [buildGrid, arange] at hv
    obtain ⟨k, hk, rfl⟩ := List.mem_map.mp hv
    have hk2 : k < arangeLen (c - b) (c + b) r := List.mem_range.mp hk
    have hkn : k < (⌈((c + b) - (c - b)) / r⌉).toNat := by
      rw [← hlen]
      exact hk2
    constructor
    · have : (0 : ℚ) ≤ k * r := mul_nonneg (by positivity) hr.le
      linarith
    · have h1 : (k : ℤ) < ⌈((c + b) - (c - b)) / r⌉ := Int.lt_toNat.mp hkn
      have h2 : (k : ℚ) < ((c + b) - (c - b)) / r := by
        exact_mod_cast Int.lt_ceil.mp h1
      have h3 : (k : ℚ) * r < (c + b) - (c - b) := (lt_div_iff₀ hr).mp h2
      linarith
  · intro k hk1
    have hk1' : k + 1 < arangeLen (c - b) (c + b) r := hlen2 ▸ hk1
    simp only [buildGrid]
    rw [arange_getD _ _ _ _ hk1', arange_getD _ _ _ _ (by omega)]
    push_cast
    ring
  · have hpos : 0 < arangeLen (c - b) (c + b) r := by
      rw [hlen]
      have h0 : (0 : ℤ) < ⌈((c + b) - (c - b)) / r⌉ :=
        Int.ceil_pos.mpr (div_pos (by linarith) hr)
      omega
    simp only [buildGrid]
    rw [arange_getD _ _ _ 0 hpos]
    simp

/-- Witness for C2 at center `0`, buffer `2`, resolution `1`. -/
theorem buildGrid_spec_witness :
    (0 < (1 : ℚ)) ∧ (0 < (2 : ℚ)) ∧
    ((∀ v ∈ buildGrid 0 2 1, 0 - 2 ≤ v ∧ v < 0 + 2) ∧
     (∀ k, k + 1 < (buildGrid 0 2 1).length →
       (buildGrid 0 2 1).getD (k + 1) 0 -
         (buildGrid 0 2 1).getD k 0 = 1) ∧
     (buildGrid 0 2 1).getD 0 0 = 0 - 2) :=
  ⟨by norm_num, by norm_num, buildGrid_spec 0 2 1 (by norm_num) (by norm_num)⟩

/-! ## C3 — standardization invariants -/

/-- Pointwise division by a constant factors out of a list sum. -/
theorem sum_map_div (l : List ℚ) (f : ℚ → ℚ) (s : ℚ) :
    (l.map (fun v => f v / s)).sum = (l.map f).sum / s := by
  induction l with
  | nil => simp
  | cons a l ih => simp [ih, add_div]

/-- Subtracting a constant from every element of a list shifts its sum by
`length * constant`. -/
theorem sum_map_sub_mean (l : List ℚ) (m : ℚ) :
    (l.map (fun v => v - m)).sum = l.sum - l.length * m := by
  induction l with
  | nil => simp
  | cons a l ih =>
      simp [ih]
      ring

/-- C3: the standardizer subtracts the single global mean and divides by
the single global standard deviation `s` (the nonnegative root of the
global variance, computed jointly over all samples and bands); when that
standard deviation is nonzero the output has global mean `0`, global
variance `1`, and hence global standard deviation `1` (any nonnegative
root of the output variance is `1`). -/
theorem rescaled_spec (l : List ℚ) (s : ℚ)
    (hs : s * s = Landsat.varQ l) (hpos : 0 < s) :
    Landsat.meanQ (Landsat.rescaled l s) = 0 ∧
    Landsat.varQ (Landsat.rescaled l s) = 1 ∧
    (∀ t : ℚ, 0 ≤ t → t * t = Landsat.varQ (Landsat.rescaled l s) → t = 1) := by
  have hvar : 0 < Landsat.varQ l := hs ▸ mul_pos hpos hpos
  have hn : l.length ≠ 0 := by
    intro h0
    have hl : l = [] := List.length_eq_zero.mp h0
    rw [hl] at hvar
    simp [Landsat.varQ] at hvar
  have hnq : (l.length : ℚ) ≠ 0 := Nat.cast_ne_zero.mpr hn
  have hsum : l.sum = l.length * Landsat.meanQ l := by
    rw [Landsat.meanQ]
    field_simp
  have hmean : Landsat.meanQ (Landsat.rescaled l s) = 0 := by
    rw [Landsat.meanQ, Landsat.rescaled]
    rw [sum_map_div l (fun v => v - Landsat.meanQ l) s]
    rw [sum_map_sub_mean l (Landsat.meanQ l)]
    rw [hsum]
    simp
  have hvar1 : Landsat.varQ (Landsat.rescaled l s) = 1 := by
    rw [Landsat.varQ, hmean]
    have hlen3 : (Landsat.rescaled l s).length = l.length := by
      simp [Landsat.rescaled]
    rw [hlen3]
    have hs0 : s ≠ 0 := ne_of_gt hpos
    have hmaps : (Landsat.rescaled l s).map (fun v => (v - 0) ^ 2) =
        l.map (fun v => ((v - Landsat.meanQ l) ^ 2) / (s * s)) := by
      rw [Landsat.rescaled, List.map_map]
      apply List.map_congr_left
      intro v _
      simp only [Function.comp_apply]
      rw [sub_zero, div_pow, pow_two s]
    rw [hmaps]
    rw [sum_map_div l (fun v => (v - Landsat.meanQ l) ^ 2) (s * s)]
    rw [hs]
    have hAl : (l.map (fun v => (v - Landsat.meanQ l) ^ 2)).sum =
        Landsat.varQ l * l.length := by
      rw [Landsat.varQ]
      field_simp
    rw [hAl]
    field_simp
  refine ⟨hmean, hvar1, ?_⟩
  intro t ht h1
  rw [hvar1] at h1
  rcases mul_self_eq_one_iff.mp h1 with h | h
  · exact h
  · linarith

/-- Witness for C3 on the sample list `[0, 2]`, whose global variance is
`1` with standard deviation `1`. -/
theorem rescaled_spec_witness :
    ((1 : ℚ) * 1 = Landsat.varQ [0, 2]) ∧ (0 < (1 : ℚ)) ∧
    (Landsat.meanQ (Landsat.rescaled [0, 2] 1) = 0 ∧
     Landsat.varQ (Landsat.rescaled [0, 2] 1) = 1 ∧
     (∀ t : ℚ, 0 ≤ t → t * t = Landsat.varQ (Landsat.rescaled [0, 2] 1) → t = 1)) := by
  have h1 : (1 : ℚ) * 1 = Landsat.varQ [0, 2] := by
    norm_num [Landsat.varQ, Landsat.meanQ]
  exact ⟨h1, one_pos, rescaled_spec [0, 2] 1 h1 one_pos⟩


/-! ## C8 — downsampler semantics -/

/-- A strictly sorted list is strictly increasing at in-range `getD`
positions. -/
theorem sorted_getD_lt (l : List ℚ) (hs : l.Sorted (· < ·)) (i j : ℕ)
    (hij : i < j) (hj : j < l.length) : l.getD i 0 < l.getD j 0 := by
  have hi : i < l.length := lt_trans hij hj
  rw [List.getD_eq_getElem?_getD, List.getElem?_eq_getElem hi,
    List.getD_eq_getElem?_getD, List.getElem?_eq_getElem hj]
  simpa using List.Sorted.rel_get_of_lt hs (Fin.mk_lt_mk.mpr hij)
    (a := ⟨i, hi⟩) (b := ⟨j, hj⟩)

/-- Under strictly sorted bin edges, `pandas.cut` (first matching
interval) assigns coordinate `c` to bin `i` exactly when
`edges i < c ≤ edges (i+1)`. -/
theorem cutIdx_eq_some_iff (edges : List ℚ) (hs : edges.Sorted (· < ·))
    (c : ℚ) (i : ℕ) :
    Landsat.cutIdx edges c = some i ↔
      i + 1 < edges.length ∧ edges.getD i 0 < c ∧ c ≤ edges.getD (i + 1) 0 := by
  revert hs
  induction edges generalizing i with
  | nil =>
    intro hs
    simp [Landsat.cutIdx]
  | cons l tail ih =>
    intro hs
    cases tail with
    | nil =>
      simp [Landsat.cutIdx]
    | cons r rest =>
      have hs' : (r :: rest).Sorted (· < ·) := hs.of_cons
      rw [Landsat.cutIdx]
      by_cases h0 : l < c ∧ c ≤ r
      · rw [if_pos h0]
        constructor
        · intro he
          have hi0 : i = 0 := (Option.some.inj he).symm
          subst hi0
          refine ⟨by simp, by simpa using h0.1, by simpa using h0.2⟩
        · rintro ⟨hilen, hgt, hle⟩
          rcases Nat.eq_zero_or_pos i with hi0 | hip
          · subst hi0
            rfl
          · exfalso
            have hr_le : r ≤ (l :: r :: rest).getD i 0 := by
              rcases Nat.lt_or_ge 1 i with h1i | h1i
              · have h := sorted_getD_lt _ hs 1 i h1i (by omega)
                simpa using le_of_lt h
              · have hi1 : i = 1 := by omega
                subst hi1
                simp
            have hrc : r < c := lt_of_le_of_lt hr_le hgt
            exact absurd h0.2 (not_le.mpr hrc)
      · rw [if_neg h0]
        constructor
        · intro he
          obtain ⟨i', hi', hii⟩ := Option.map_eq_some'.mp he
          obtain ⟨h1, h2, h3⟩ := (ih i' hs').mp hi'
          subst hii
          refine ⟨?_, ?_, ?_⟩
          · simp only [List.length_cons] at h1 ⊢
            omega
          · simpa [List.getD_cons_succ] using h2
          · simpa [List.getD_cons_succ] using h3
        · rintro ⟨hilen, hgt, hle⟩
          rcases Nat.eq_zero_or_pos i with hi0 | hip
          · exfalso
            subst hi0
            exact h0 ⟨by simpa using hgt, by simpa using hle⟩
          · obtain ⟨i', rfl⟩ : ∃ i', i = i' + 1 := ⟨i - 1, by omega⟩
            have htail : Landsat.cutIdx (r :: rest) c = some i' := by
              refine (ih i' hs').mpr ⟨?_, ?_, ?_⟩
              · simp only [List.length_cons] at hilen ⊢
                omega
              · simpa [List.getD_cons_succ] using hgt
              · simpa [List.getD_cons_succ] using hle
            rw [htail]
            rfl

/-- C8 amended: for strictly sorted coarse edges, the downsampler assigns
each fine cell to the left-open right-closed bin `(edges i, edges (i+1)]`
containing its coordinate (cells at or below the first edge, or above the
last edge, belong to no bin).  When no fine cell falls within any bin,
`groupby_bins` raises `ValueError` — the error result `none`.  Otherwise
every bin holding at least one fine cell contributes the mean of its
cells' values, labelled with the bin's left edge, and a bin holding no
fine cells is omitted from the output instead of yielding a missing-value
marker. -/
theorem binnedMean_spec (cells : List (ℚ × ℚ)) (edges : List ℚ)
    (hs : edges.Sorted (· < ·)) :
    (∀ c i, Landsat.cutIdx edges c = some i ↔
      i + 1 < edges.length ∧ edges.getD i 0 < c ∧ c ≤ edges.getD (i + 1) 0) ∧
    ((∀ p ∈ cells, Landsat.cutIdx edges p.1 = none) →
      Landsat.binnedMean cells edges = none) ∧
    (∀ out, Landsat.binnedMean cells edges = some out →
      ∀ i, i + 1 < edges.length →
        (Landsat.binMembers cells edges i ≠ [] →
          (edges.getD i 0, Landsat.meanQ (Landsat.binMembers cells edges i)) ∈ out) ∧
        (Landsat.binMembers cells edges i = [] →
          ∀ v, (edges.getD i 0, v) ∉ out)) := by
  refine ⟨fun c i => cutIdx_eq_some_iff edges hs c i, ?_, ?_⟩
  · intro hall
    simp only [Landsat.binnedMean, if_pos hall]
  · intro out hout i hi
    by_cases hall : ∀ p ∈ cells, Landsat.cutIdx edges p.1 = none
    · simp only [Landsat.binnedMean, if_pos hall] at hout
      exact Option.noConfusion hout
    · simp only [Landsat.binnedMean, if_neg hall] at hout
      obtain rfl := Option.some.inj hout
      refine ⟨?_, ?_⟩
      · intro hne
        refine List.mem_filterMap.mpr ⟨i, List.mem_range.mpr (by omega), ?_⟩
        rw [if_neg hne]
      · intro hemp v hv
        obtain ⟨j, hj, hfj⟩ := List.mem_filterMap.mp hv
        have hjlen : j + 1 < edges.length := by
          have := List.mem_range.mp hj
          omega
        by_cases hje : Landsat.binMembers cells edges j = []
        · rw [if_pos hje] at hfj
          exact Option.noConfusion hfj
        · rw [if_neg hje] at hfj
          have hpair := Option.some.inj hfj
          have hedge : edges.getD j 0 = edges.getD i 0 := congrArg Prod.fst hpair
          have hij : j = i := by
            by_contra hne2
            rcases Nat.lt_or_ge j i with h | h
            · exact absurd hedge
                (ne_of_lt (sorted_getD_lt edges hs j i h (by omega)))
            · have h2 : i < j := by omega
              exact absurd hedge.symm
                (ne_of_lt (sorted_getD_lt edges hs i j h2 (by omega)))
          rw [hij] at hje
          exact hje hemp

/-- C8 counterexample.  With fine cell `(0, 5)` and edges `[0, 1, 2]` the
cell sits exactly on the first edge, so `pandas.cut` assigns it to no bin
(the bins do not partition the fine cells) and no data falls within any
bin, so `groupby_bins` raises `ValueError` instead of producing an output
with missing-value markers.  With fine cell `(1/2, 2)` the first bin is
populated, and the computation succeeds — but the empty second bin
`(1, 2]` is absent from the output `[(0, 2)]` (no cell labelled with its
left edge `1`), not marked missing. -/
theorem binnedMean_cex :
    Landsat.cutIdx [(0 : ℚ), 1, 2] 0 = none ∧
    Landsat.binnedMean [((0 : ℚ), (5 : ℚ))] [0, 1, 2] = none ∧
    Landsat.binnedMean [((1/2 : ℚ), (2 : ℚ))] [0, 1, 2] = some [(0, 2)] ∧
    (∀ v out, Landsat.binnedMean [((1/2 : ℚ), (2 : ℚ))] [0, 1, 2] = some out →
      ((1 : ℚ), v) ∈ out → False) := by
  have h3 : Landsat.binnedMean [((1/2 : ℚ), (2 : ℚ))] [0, 1, 2] = some [(0, 2)] := by
    norm_num [Landsat.binnedMean, Landsat.binMembers, Landsat.cutIdx,
      List.range_succ, List.filterMap_cons, List.filter_cons, Landsat.meanQ]
    simp
  refine ⟨by decide, by decide, h3, ?_⟩
  intro v out h hmem
  rw [h3] at h
  obtain rfl := Option.some.inj h
  simp at hmem

/-- Witness for the amended C8 on concrete cells and edges. -/
theorem binnedMean_spec_witness :
    (([(0 : ℚ), 1, 2]).Sorted (· < ·)) ∧
    ((∀ c i, Landsat.cutIdx [(0 : ℚ), 1, 2] c = some i ↔
      i + 1 < ([(0 : ℚ), 1, 2]).length ∧ ([(0 : ℚ), 1, 2]).getD i 0 < c ∧
        c ≤ ([(0 : ℚ), 1, 2]).getD (i + 1) 0) ∧
     ((∀ p ∈ [((1 : ℚ), (4 : ℚ)), ((1/2 : ℚ), (2 : ℚ))],
         Landsat.cutIdx [(0 : ℚ), 1, 2] p.1 = none) →
       Landsat.binnedMean [((1 : ℚ), (4 : ℚ)), ((1/2 : ℚ), (2 : ℚ))] [0, 1, 2] = none) ∧
     (∀ out,
       Landsat.binnedMean [((1 : ℚ), (4 : ℚ)), ((1/2 : ℚ), (2 : ℚ))] [0, 1, 2] = some out →
       ∀ i, i + 1 < ([(0 : ℚ), 1, 2]).length →
        (Landsat.binMembers [((1 : ℚ), (4 : ℚ)), ((1/2 : ℚ), (2 : ℚ))] [0, 1, 2] i ≠ [] →
          (([(0 : ℚ), 1, 2]).getD i 0,
            Landsat.meanQ (Landsat.binMembers [((1 : ℚ), (4 : ℚ)), ((1/2 : ℚ), (2 : ℚ))] [0, 1, 2] i)) ∈
            out) ∧
        (Landsat.binMembers [((1 : ℚ), (4 : ℚ)), ((1/2 : ℚ), (2 : ℚ))] [0, 1, 2] i = [] →
          ∀ v, (([(0 : ℚ), 1, 2]).getD i 0, v) ∉ out))) := by
  have hs : ([(0 : ℚ), 1, 2]).Sorted (· < ·) := by
    norm_num [List.sorted_cons]
  exact ⟨hs, binnedMean_spec [((1 : ℚ), (4 : ℚ)), ((1/2 : ℚ), (2 : ℚ))] [0, 1, 2] hs⟩

/-! ## C4 — zero-variance standardization -/

/-- A sum of squared deviations is nonnegative. -/
theorem sum_sq_nonneg (l : List ℚ) (m : ℚ) :
    0 ≤ (l.map (fun v => (v - m) ^ 2)).sum := by
  induction l with
  | nil => simp
  | cons a l ih =>
      simp only [List.map_cons, List.sum_cons]
      have h := sq_nonneg (a - m)
      linarith

/-- A zero sum of squared deviations forces every deviation to zero. -/
theorem sum_sq_eq_zero (l : List ℚ) (m : ℚ)
    (h : (l.map (fun v => (v - m) ^ 2)).sum = 0) : ∀ v ∈ l, v - m = 0 := by
  induction l with
  | nil => simp
  | cons a l ih =>
      simp only [List.map_cons, List.sum_cons] at h
      have h1 : 0 ≤ (l.map (fun v => (v - m) ^ 2)).sum := sum_sq_nonneg l m
      have h2 : 0 ≤ (a - m) ^ 2 := sq_nonneg _
      have ha : (a - m) ^ 2 = 0 := by linarith
      have hrest : (l.map (fun v => (v - m) ^ 2)).sum = 0 := by linarith
      intro v hv
      rcases List.mem_cons.mp hv with rfl | hv2
      · exact (pow_eq_zero_iff two_ne_zero).mp ha
      · exact ih hrest v hv2

/-- C4 amended: on a sample matrix with zero global standard deviation
the standardizer raises no error — under NumPy's default error state the
float division by the zero standard deviation yields a missing-value
marker in every cell, propagated to the caller; nothing is caught,
recovered, or retried.  Moreover every numerator `v - mean` is itself
zero, so each cell is literally `0/0`, the NaN case. -/
theorem rescaledNaN_zero_std (l : List ℚ) (s : ℚ)
    (hs : s * s = Landsat.varQ l) (h0 : Landsat.varQ l = 0) :
    (∀ v ∈ l, v - Landsat.meanQ l = 0) ∧
    Landsat.rescaledNaN l s = l.map (fun _ => none) := by
  have hs0 : s = 0 := mul_self_eq_zero.mp (by rw [hs, h0])
  constructor
  · rcases Nat.eq_zero_or_pos l.length with hn | hn
    · have hnil : l = [] := List.length_eq_zero.mp hn
      simp [hnil]
    · have hnq : (l.length : ℚ) ≠ 0 := Nat.cast_ne_zero.mpr (by omega)
      have hA : (l.map (fun v => (v - Landsat.meanQ l) ^ 2)).sum = 0 := by
        have hv0 := h0
        rw [Landsat.varQ] at hv0
        rcases div_eq_zero_iff.mp hv0 with h | h
        · exact h
        · exact absurd h hnq
      exact sum_sq_eq_zero l (Landsat.meanQ l) hA
  · simp [Landsat.rescaledNaN, Landsat.divNaN, hs0]

/-- C4 counterexample: the constant sample matrix `[1, 1]` has zero
global variance (hence zero standard deviation), and the standardizer
evaluates there to the defined value `[none, none]` — NaN markers in
every cell — rather than raising a division-by-zero error. -/
theorem rescaledNaN_cex :
    Landsat.varQ [(1 : ℚ), 1] = 0 ∧
    Landsat.rescaledNaN [(1 : ℚ), 1] 0 = [none, none] := by
  constructor
  · norm_num [Landsat.varQ, Landsat.meanQ]
  · norm_num [Landsat.rescaledNaN, Landsat.divNaN, Landsat.meanQ]

/-- Witness for the amended C4 on the constant sample matrix `[1, 1]`. -/
theorem rescaledNaN_zero_std_witness :
    ((0 : ℚ) * 0 = Landsat.varQ [(1 : ℚ), 1]) ∧
    (Landsat.varQ [(1 : ℚ), 1] = 0) ∧
    ((∀ v ∈ [(1 : ℚ), 1], v - Landsat.meanQ [(1 : ℚ), 1] = 0) ∧
     Landsat.rescaledNaN [(1 : ℚ), 1] 0 = ([(1 : ℚ), 1]).map (fun _ => none)) := by
  have h0 : Landsat.varQ [(1 : ℚ), 1] = 0 := by
    norm_num [Landsat.varQ, Landsat.meanQ]
  exact ⟨by rw [h0]; ring, h0, rescaledNaN_zero_std [(1 : ℚ), 1] 0 (by rw [h0]; ring) h0⟩

end Landsat
